import Mathlib

/-!
# Verification of the Scaffold-Lab contig / alignment / orchestration core

This file gives a shallow embedding of the algorithmic core of the
Scaffold-Lab repository and proves properties of it:

* the contig grammar and motif/scaffold indexing engine
  (`generate_indices_and_mask` in `analysis/utils.py`),
* the row-wise success classification (`analyze_success_rate`),
* the bounded retry loops around external processes
  (`Refolder.run_self_consistency` and `Refolder.run_af2` in
  `scaffold_lab/unconditional/refolding.py`),
* the skip-if-directory-exists rule of `Refolder.run_sampling`,
* the per-backbone result merge (`csv_merge`),
* the Kabsch rigid superposition (`rigid_transform_3D`,
  `calc_aligned_rmsd`).

Python strings are modelled as `List Char`, Python `int` as `ℤ`,
floating-point scalars as `ℚ` or `ℝ`, raised exceptions as an explicit
error type, and external calls (subprocesses, the SVD routine, the file
system) as oracle inputs constrained by hypotheses.
-/

namespace ScaffoldLab

/-! ## Contig grammar: `generate_indices_and_mask` (analysis/utils.py) -/

/-- The chain-letter alphabet literal of `generate_indices_and_mask`:
`ALPHABET = "ABCDEFGHJKLMNOPQRSTUVWXYZ"`. -/
def ALPHABET : List Char := "ABCDEFGHJKLMNOPQRSTUVWXYZ".toList

/-- Python `str.split(c)` on a character list: splits at every occurrence of
`c` and keeps empty pieces, so `splitOnChar c [] = [[]]` just as
`"".split(c) == [""]`. -/
def splitOnChar (c : Char) : List Char → List (List Char)
  | [] => [[]]
  | x :: xs =>
    if x = c then [] :: splitOnChar c xs
    else
      match splitOnChar c xs with
      | [] => [[x]]
      | h :: t => (x :: h) :: t

/-- Numeric value of a decimal digit character. -/
def digitVal (c : Char) : ℕ := c.toNat - 48

/-- Decimal parse of a nonempty all-digit character list; `none` otherwise.
This is the core of Python `int` on the unsigned tokens that occur in
contig strings. -/
def digitsToNat (l : List Char) : Option ℕ :=
  if l ≠ [] ∧ l.all (fun c => c.isDigit) then
    some (l.foldl (fun acc c => 10 * acc + digitVal c) 0)
  else none

/-- Model of Python `int()` on a token: an optional sign followed by a
nonempty digit string; any other input raises `ValueError`, modelled as
`none`. -/
def pyInt (l : List Char) : Option ℤ :=
  match l with
  | [] => none
  | c :: rest =>
    if c = '-' then (digitsToNat rest).map (fun v => -(v : ℤ))
    else if c = '+' then (digitsToNat rest).map (fun v => (v : ℤ))
    else (digitsToNat (c :: rest)).map (fun v => (v : ℤ))

/-- The Python exception kinds distinguished by the embedded code. -/
inductive PyErr
  | indexError
  | valueError
  | assertionError
  | runtimeError
deriving DecidableEq

deriving instance DecidableEq for Except

/-- The branch test of the token loop in `generate_indices_and_mask`:
`part[0] in ALPHABET` (an empty token would raise `IndexError`; here it
simply reports `false` and the caller raises). -/
def tokGoesMotif (tok : List Char) : Bool :=
  match tok.head? with
  | none => false
  | some c => decide (c ∈ ALPHABET)

/-- One iteration of the `for part in components` loop body of
`generate_indices_and_mask`: classifies the token and computes the segment
length.  The returned Bool is `true` for a motif token.  Mirrors the source:
motif tokens split `part[1:]` on `-` into exactly two integers (or parse a
single integer) and contribute `end - start + 1`; scaffold tokens containing
`-` pass through `assert part.split('-')[0] == part.split('-')[-1]` (the
`raise ValueError` of the docstring is commented out in the source) and
contribute `int(part.split('-')[0])`; plain scaffold tokens contribute
`int(part)`. -/
def classifyTok (tok : List Char) : Except PyErr (Bool × ℤ) :=
  match tok.head? with
  | none => .error .indexError
  | some _ =>
    if tokGoesMotif tok then
      if '-' ∈ tok then
        match splitOnChar '-' tok.tail with
        | [a, b] =>
          match pyInt a, pyInt b with
          | some s, some e => .ok (true, e - s + 1)
          | _, _ => .error .valueError
        | _ => .error .valueError
      else
        match pyInt tok.tail with
        | some v => .ok (true, v - v + 1)
        | none => .error .valueError
    else
      if '-' ∈ tok then
        let ps := splitOnChar '-' tok
        if ps.headD [] = ps.getLastD [] then
          match pyInt (ps.headD []) with
          | some v => .ok (false, v)
          | none => .error .valueError
        else .error .assertionError
      else
        match pyInt tok with
        | some v => .ok (false, v)
        | none => .error .valueError

/-- The accumulation loop of `generate_indices_and_mask`: walks the tokens
carrying the 1-based cursor `pos`, the motif index list and the boolean
mask (Python `range(p, p + len)` is empty for `len ≤ 0`, as is
`[True] * len`, hence the `Int.toNat`). -/
def buildMask : List (List Char) → ℤ → List ℤ → List Bool →
    Except PyErr (ℕ × List ℤ × List Bool)
  | [], _, idx, mask => .ok (mask.length, idx, mask)
  | tok :: rest, pos, idx, mask =>
    match classifyTok tok with
    | .error e => .error e
    | .ok (isMotif, len) =>
      if isMotif then
        buildMask rest (pos + len)
          (idx ++ (List.range len.toNat).map (fun i => pos + Int.ofNat i))
          (mask ++ List.replicate len.toNat true)
      else
        buildMask rest (pos + len) idx (mask ++ List.replicate len.toNat false)

/-- `generate_indices_and_mask` from `analysis/utils.py`: split the contig on
`/`, walk the tokens, and return `(overall_length, motif_indices,
motif_mask)` where `overall_length` is the mask length. -/
def generate_indices_and_mask (contig : String) :
    Except PyErr (ℕ × List ℤ × List Bool) :=
  buildMask (splitOnChar '/' contig.toList) 1 [] []

/-! ### Spec-side data model for contigs (spec §3) -/

/-- A contig segment as described by the spec data model. -/
inductive Segment
  | scaffold (len : ℤ)
  | motif (chain : Char) (s e : ℤ)
deriving DecidableEq

/-- Declared length of a segment, per the spec: a scaffold contributes its
literal integer, a motif `C s-e` contributes `e - s + 1` (a single-position
motif has `s = e`). -/
def Segment.declaredLen : Segment → ℤ
  | .scaffold n => n
  | .motif _ s e => e - s + 1

/-- Whether a segment is a motif segment. -/
def Segment.isMotif : Segment → Bool
  | .scaffold _ => false
  | .motif _ _ _ => true

/-- Spec-side grammar relation: which token strings denote which segments.
A scaffold token is a plain positive decimal integer; a motif token is a
chain letter from `ALPHABET` followed by either a single position or an
ascending `s-e` range. -/
inductive TokenDenotes : List Char → Segment → Prop
  | scaffold (l : List Char) (v : ℕ) :
      l ≠ [] → l.all (fun c => c.isDigit) = true → digitsToNat l = some v →
      0 < v → TokenDenotes l (.scaffold (v : ℤ))
  | motifSingle (c : Char) (l : List Char) (v : ℕ) :
      c ∈ ALPHABET → l ≠ [] → l.all (fun ch => ch.isDigit) = true →
      digitsToNat l = some v →
      TokenDenotes (c :: l) (.motif c (v : ℤ) (v : ℤ))
  | motifRange (c : Char) (a b : List Char) (s e : ℕ) :
      c ∈ ALPHABET → a ≠ [] → b ≠ [] →
      a.all (fun ch => ch.isDigit) = true →
      b.all (fun ch => ch.isDigit) = true →
      digitsToNat a = some s → digitsToNat b = some e → s ≤ e →
      TokenDenotes (c :: (a ++ '-' :: b)) (.motif c (s : ℤ) (e : ℤ))

/-- A contig string is valid when each of its `/`-separated tokens denotes a
segment of the spec data model. -/
def ValidContig (contig : String) (segs : List Segment) : Prop :=
  List.Forall₂ TokenDenotes (splitOnChar '/' contig.toList) segs

/-- The classification predicate asserted by the spec claim C9 (spec-side,
for comparison with the code): first character uppercase, excluding both
easily-confused letters I and O. -/
def claimMotifHead (c : Char) : Bool := c.isUpper && c != 'I' && c != 'O'

/-- One row of the merged evaluation table, restricted to the two RMSD
columns used by the success classification of `analyze_success_rate`
(floating-point values modelled as rationals). -/
structure EvalRow where
  rmsd : ℚ
  motif_rmsd : ℚ
deriving DecidableEq

/-- Column `seq_hit` of `analyze_success_rate`:
`(rmsd < 2) & (motif_rmsd < 1)`, per row. -/
def seq_hit (r : EvalRow) : Bool :=
  decide (r.rmsd < 2) && decide (r.motif_rmsd < 1)

/-- Column `seq_backbone_hit` of `analyze_success_rate`: `rmsd < 2`. -/
def seq_backbone_hit (r : EvalRow) : Bool := decide (r.rmsd < 2)

/-- Column `seq_motif_hit` of `analyze_success_rate`: `motif_rmsd < 1`. -/
def seq_motif_hit (r : EvalRow) : Bool := decide (r.motif_rmsd < 1)

/-- Result of one bounded retry loop: the external process eventually
completed with an exit code, or the last exception was re-raised; in both
cases `attempts` counts the process invocations that were made. -/
inductive RetryOut
  | completed (ret : ℤ) (attempts : ℕ)
  | raised (attempts : ℕ)
deriving DecidableEq

/-- The `while ret < 0: try: ... except:` retry loop shared by
`Refolder.run_self_consistency` and `Refolder.run_af2`.  `outcome i` is the
result of attempt `i`: `some code` means the spawned process exited with
that code, `none` means an exception was raised.  On an exception the
counter increments and, once it exceeds `bound`, the exception propagates.
`fuel` bounds the unrolling of the `while` loop (`none` when exhausted,
which happens only on endless negative exit codes). -/
def retryLoop (bound : ℕ) (outcome : ℕ → Option ℤ) :
    ℕ → ℕ → ℕ → Option RetryOut
  | 0, _, _ => none
  | fuel + 1, i, numTries =>
    match outcome i with
    | some ret =>
      if ret < 0 then retryLoop bound outcome fuel (i + 1) numTries
      else some (.completed ret (i + 1))
    | none =>
      if numTries + 1 > bound then some (.raised (i + 1))
      else retryLoop bound outcome fuel (i + 1) (numTries + 1)

/-- The ProteinMPNN retry loop of `Refolder.run_self_consistency`
(`refolding.py`): the guard is `if num_tries > 4: raise e`. -/
def mpnnRetry (outcome : ℕ → Option ℤ) (fuel : ℕ) : Option RetryOut :=
  retryLoop 4 outcome fuel 0 0

/-- The AlphaFold2 retry loop of `Refolder.run_af2` (`refolding.py`): the
guard is `if num_tries_af2 > 10: raise e`, although the adjacent log
message reports `Tried n/5`. -/
def af2Retry (outcome : ℕ → Option ℤ) (fuel : ℕ) : Option RetryOut :=
  retryLoop 10 outcome fuel 0 0

/-! ## File-system model for `Refolder.run_sampling` -/

/-- Abstract file-system state: the set of existing directories and the
files, keyed by (directory, filename), with their contents.  Paths are
character lists; `os.path.join(a, b)` is `a ++ '/' :: b`. -/
structure FS where
  dirs : List (List Char)
  files : List ((List Char × List Char) × List Char)
deriving DecidableEq

/-- The observable operations of the sampling loop: directory creation,
file copies, and the per-backbone `run_self_consistency` invocation, which
stands for all external-process work done for that backbone. -/
inductive SampOp
  | mkdir (d : List Char)
  | copy (d : List Char) (f : List Char) (content : List Char)
  | selfConsistency (backbone : List Char)
deriving DecidableEq

/-- The `self_consistency` subdirectory name. -/
def scSub : List Char := "self_consistency".toList

/-- `os.path.splitext(f)[0]`: the filename with its last extension
removed. -/
def dropExt (l : List Char) : List Char :=
  if '.' ∈ l then (((l.reverse).dropWhile (fun c => c ≠ '.')).tail).reverse
  else l

/-- `Refolder.run_sampling` (`refolding.py`): walks the listing of the
backbone pdb directory; for each file, if the backbone output directory
already exists the backbone is skipped (`continue`); otherwise the
directory is created, the pdb copied in, a `self_consistency` subdirectory
created with a second copy, and `run_self_consistency` invoked.  `outBase`
is `os.path.join(output_dir, basename(sample_dir))` and `readFile` models
reading a source file.  Returns the final file system and the operations
performed, in order. -/
def run_sampling (outBase : List Char) (readFile : List Char → List Char) :
    List (List Char) → FS → FS × List SampOp
  | [], fs => (fs, [])
  | f :: rest, fs =>
    let name := dropExt f
    let dir := outBase ++ '/' :: name
    if dir ∈ fs.dirs then run_sampling outBase readFile rest fs
    else
      let scd := dir ++ '/' :: scSub
      let fs1 : FS := ⟨scd :: dir :: fs.dirs,
        fs.files ++ [((dir, f), readFile f), ((scd, f), readFile f)]⟩
      let out := run_sampling outBase readFile rest fs1
      (out.1, .mkdir dir :: .copy dir f (readFile f) :: .mkdir scd ::
        .copy scd f (readFile f) :: .selfConsistency name :: out.2)

/-! ## Model of `csv_merge` (analysis/utils.py) -/

/-- One directory visited by `os.walk` inside `csv_merge`, together with
the two reads the loop body performs there: the rows of the eval csv (when
that file is present in `files`) and the `glob('*.pdb')` result of the
parent directory. -/
structure WalkDir where
  files : List String
  csvRows : List String
  parentPdbs : List String
deriving DecidableEq

/-- The accumulation loop of `csv_merge`: for each visited directory
containing `{prefix}_eval_results.csv`, bump the file count, raise
`RuntimeError` when the parent directory holds more than one `.pdb` file,
and otherwise tag every row of the csv with the single pdb path (or `none`
when there is no pdb) before concatenating. -/
def csvMergeLoop (pfx : String) :
    List WalkDir → List (String × Option String) → ℕ →
    Except PyErr (List (String × Option String) × ℕ)
  | [], acc, cnt => .ok (acc, cnt)
  | d :: rest, acc, cnt =>
    if (pfx ++ "_eval_results.csv") ∈ d.files then
      if d.parentPdbs.length > 1 then .error .runtimeError
      else
        csvMergeLoop pfx rest
          (acc ++ d.csvRows.map (fun r => (r, d.parentPdbs.head?))) (cnt + 1)
    else csvMergeLoop pfx rest acc cnt

/-- `csv_merge` from `analysis/utils.py` over an abstract `os.walk` result:
validates the prefix (`ValueError` otherwise) and runs the merge loop. -/
def csv_merge (pfx : String) (walk : List WalkDir) :
    Except PyErr (List (String × Option String) × ℕ) :=
  if pfx ∈ ["esm", "af2", "joint"] then csvMergeLoop pfx walk [] 0
  else .error .valueError

/-- Spec-side description of the merged table: the rows of every visited
directory holding the eval csv, each tagged with the head of the parent
pdb list (`none` when that list is empty). -/
def specMergedRows (pfx : String) (walk : List WalkDir) :
    List (String × Option String) :=
  ((walk.filter (fun d => decide ((pfx ++ "_eval_results.csv") ∈ d.files))).map
    (fun d => d.csvRows.map (fun r => (r, d.parentPdbs.head?)))).flatten


open Matrix

/-- `Vt[2,:] *= -1` from `rigid_transform_3D`: negate the last row of the
transposed right-singular-vector matrix. -/
def negLastRow {K : Type} [Field K] (Vt : Matrix (Fin 3) (Fin 3) K) :
    Matrix (Fin 3) (Fin 3) K :=
  Vt.updateRow 2 (fun j => -(Vt 2 j))

/-- The rotation block of `rigid_transform_3D`: `R = Vt.T @ U.T`; when
`det(R) < 0` a reflection is detected, the last row of `Vt` is negated and
`R` recomputed.  The Bool is `reflection_detected`. -/
def computeRotation {K : Type} [LinearOrderedField K]
    (U Vt : Matrix (Fin 3) (Fin 3) K) : Matrix (Fin 3) (Fin 3) K × Bool :=
  let R := Vtᵀ * Uᵀ
  if R.det < 0 then ((negLastRow Vt)ᵀ * Uᵀ, true) else (R, false)

/-- Column-wise centroid (`np.mean(A, axis=1)`) of a `3×N` matrix of
points. -/
noncomputable def centroid {n : ℕ} (M : Matrix (Fin 3) (Fin n) ℝ)
    (i : Fin 3) : ℝ :=
  (∑ j, M i j) / n

/-- `A - centroid_A`: the mean-centered point set. -/
noncomputable def centered {n : ℕ} (M : Matrix (Fin 3) (Fin n) ℝ) :
    Matrix (Fin 3) (Fin n) ℝ :=
  fun i j => M i j - centroid M i

/-- `H = Am @ Bm.T`: the 3×3 cross-covariance of the centered point sets
(inputs in the `N×3` orientation of the source, transposed internally). -/
noncomputable def covH {n : ℕ} (A B : Matrix (Fin n) (Fin 3) ℝ) :
    Matrix (Fin 3) (Fin 3) ℝ :=
  centered Aᵀ * (centered Bᵀ)ᵀ

/-- `rigid_transform_3D` from `analysis/utils.py`: transforms `A` to look
like `B`.  The SVD of `H` is an external numpy routine; its outputs `U`,
`Vt` are taken as oracle inputs (the code never reads the singular
values).  Returns `(optimal_A.T, R, t, reflection_detected)`. -/
noncomputable def rigid_transform_3D {n : ℕ}
    (A B : Matrix (Fin n) (Fin 3) ℝ) (U Vt : Matrix (Fin 3) (Fin 3) ℝ) :
    Matrix (Fin n) (Fin 3) ℝ × Matrix (Fin 3) (Fin 3) ℝ ×
      (Fin 3 → ℝ) × Bool :=
  let R := (computeRotation U Vt).1
  let t : Fin 3 → ℝ :=
    fun i => -(∑ k, R i k * centroid Aᵀ k) + centroid Bᵀ i
  let optimalA : Matrix (Fin 3) (Fin n) ℝ :=
    fun i j => (∑ k, R i k * Aᵀ k j) + t i
  (optimalAᵀ, R, t, (computeRotation U Vt).2)

/-- `calc_aligned_rmsd` from `analysis/utils.py`:
`sqrt(mean(norm(aligned_pos_1 - pos_2, axis=-1) ** 2))`. -/
noncomputable def calc_aligned_rmsd {n : ℕ}
    (A B : Matrix (Fin n) (Fin 3) ℝ) (U Vt : Matrix (Fin 3) (Fin 3) ℝ) :
    ℝ :=
  Real.sqrt
    ((∑ i, ∑ j, ((rigid_transform_3D A B U Vt).1 i j - B i j) ^ 2) / n)


/-- Concrete witness point set for the Kabsch theorems: six points whose
centroid is the origin and whose self-covariance is `diag(18, 8, 2)`. -/
noncomputable def kabschPts : Matrix (Fin 6) (Fin 3) ℝ :=
  Matrix.of ![![3, 0, 0], ![-3, 0, 0], ![0, 2, 0],
    ![0, -2, 0], ![0, 0, 1], ![0, 0, -1]]

/-- The singular values of the witness covariance, in descending order. -/
noncomputable def kabschSv : Fin 3 → ℝ := ![18, 8, 2]


/-! ## Theorems -/

lemma splitOnChar_of_not_mem (c : Char) (l : List Char) (h : c ∉ l) :
    splitOnChar c l = [l] := by
  induction l with
  | nil => rfl
  | cons x xs ih =>
    have hx : x ≠ c := fun he => h (he ▸ List.mem_cons_self x xs)
    have hxs : c ∉ xs := fun hm => h (List.mem_cons_of_mem x hm)
    simp only [splitOnChar, if_neg hx, ih hxs]

lemma splitOnChar_append (c : Char) (a b : List Char) (ha : c ∉ a) :
    splitOnChar c (a ++ c :: b) = a :: splitOnChar c b := by
  induction a with
  | nil => simp [splitOnChar]
  | cons x a' ih =>
    have hx : x ≠ c := fun he => ha (he ▸ List.mem_cons_self x a')
    have ha' : c ∉ a' := fun hm => ha (List.mem_cons_of_mem x hm)
    rw [List.cons_append]
    simp only [splitOnChar, if_neg hx]
    rw [ih ha']

lemma not_mem_ALPHABET_of_isDigit {c : Char} (hd : c.isDigit = true) :
    c ∉ ALPHABET := by
  intro hm
  have hall : ALPHABET.all (fun ch => ¬ ch.isDigit) = true := by decide
  have := List.all_eq_true.mp hall c hm
  simp [hd] at this

lemma pyInt_of_digits {l : List Char} (hne : l ≠ [])
    (hdig : l.all (fun c => c.isDigit) = true) :
    pyInt l = (digitsToNat l).map (fun v => (v : ℤ)) := by
  obtain ⟨c, l', rfl⟩ := List.exists_cons_of_ne_nil hne
  have hc : c.isDigit = true := by
    have := List.all_eq_true.mp hdig c (List.mem_cons_self c l')
    simpa using this
  have h1 : c ≠ '-' := by rintro rfl; simp at hc
  have h2 : c ≠ '+' := by rintro rfl; simp at hc
  simp [pyInt, h1, h2]

lemma dash_not_mem_of_digits {l : List Char}
    (hdig : l.all (fun c => c.isDigit) = true) : '-' ∉ l := by
  intro hm
  have := List.all_eq_true.mp hdig _ hm
  simp at this

lemma classifyTok_denotes {tok : List Char} {seg : Segment}
    (h : TokenDenotes tok seg) :
    classifyTok tok = .ok (seg.isMotif, seg.declaredLen) ∧ 0 ≤ seg.declaredLen := by
  cases h with
  | scaffold l v hne hdig hval hpos =>
    obtain ⟨c, l', rfl⟩ := List.exists_cons_of_ne_nil hne
    have hc : c.isDigit = true := by
      have := List.all_eq_true.mp hdig c (List.mem_cons_self c l')
      simpa using this
    have hmem : c ∉ ALPHABET := not_mem_ALPHABET_of_isDigit hc
    have hmot : tokGoesMotif (c :: l') = false := by
      simp [tokGoesMotif, hmem]
    have hdash : '-' ∉ c :: l' := dash_not_mem_of_digits hdig
    have hpy : pyInt (c :: l') = some ((v : ℤ)) := by
      rw [pyInt_of_digits (by simp) hdig, hval]; rfl
    refine ⟨?_, by simp [Segment.declaredLen]⟩
    simp only [classifyTok, List.head?, hmot, Bool.false_eq_true, if_false,
      if_neg hdash, hpy]
    rfl
  | motifSingle c l v hc hne hdig hval =>
    have hmot : tokGoesMotif (c :: l) = true := by simp [tokGoesMotif, hc]
    have hcdash : c ≠ '-' := by
      rintro rfl; revert hc; decide
    have hdash : '-' ∉ c :: l := by
      intro hm
      rcases List.mem_cons.mp hm with h | h
      · exact hcdash h.symm
      · exact dash_not_mem_of_digits hdig h
    have hpy : pyInt l = some ((v : ℤ)) := by
      rw [pyInt_of_digits hne hdig, hval]; rfl
    refine ⟨?_, by simp [Segment.declaredLen]⟩
    simp only [classifyTok, List.head?, hmot, if_true, if_neg hdash,
      List.tail_cons, hpy]
    rfl
  | motifRange c a b s e hc hane hbne hadig hbdig hsa hsb hse =>
    have hmot : tokGoesMotif (c :: (a ++ '-' :: b)) = true := by
      simp [tokGoesMotif, hc]
    have hdashmem : '-' ∈ c :: (a ++ '-' :: b) := by simp
    have hsplit : splitOnChar '-' (a ++ '-' :: b) = [a, b] := by
      rw [splitOnChar_append '-' a b (dash_not_mem_of_digits hadig),
        splitOnChar_of_not_mem '-' b (dash_not_mem_of_digits hbdig)]
    have hpa : pyInt a = some ((s : ℤ)) := by
      rw [pyInt_of_digits hane hadig, hsa]; rfl
    have hpb : pyInt b = some ((e : ℤ)) := by
      rw [pyInt_of_digits hbne hbdig, hsb]; rfl
    constructor
    · simp only [classifyTok, List.head?, hmot, if_true, if_pos hdashmem,
        List.tail_cons, hsplit, hpa, hpb]
      rfl
    · have hcast : (s : ℤ) ≤ (e : ℤ) := by exact_mod_cast hse
      simp only [Segment.declaredLen]
      omega

lemma buildMask_count : ∀ (comps : List (List Char)) (pos : ℤ) (idx : List ℤ)
    (mask : List Bool) (L : ℕ) (I : List ℤ) (M : List Bool),
    buildMask comps pos idx mask = .ok (L, I, M) →
    M.count true + idx.length = I.length + mask.count true := by
  intro comps
  induction comps with
  | nil =>
    intro pos idx mask L I M h
    simp only [buildMask, Except.ok.injEq, Prod.mk.injEq] at h
    obtain ⟨-, rfl, rfl⟩ := h
    omega
  | cons tok rest ih =>
    intro pos idx mask L I M h
    simp only [buildMask] at h
    split at h
    · exact absurd h (by simp)
    · rename_i isM lenv heq
      split at h
      · have hrec := ih _ _ _ _ _ _ h
        have h1 : (idx ++ (List.range lenv.toNat).map
            (fun i => pos + Int.ofNat i)).length = idx.length + lenv.toNat := by
          simp
        have h2 : (mask ++ List.replicate lenv.toNat true).count true =
            mask.count true + lenv.toNat := by
          simp [List.count_append, List.count_replicate]
        rw [h1, h2] at hrec
        omega
      · have hrec := ih _ _ _ _ _ _ h
        have h2 : (mask ++ List.replicate lenv.toNat false).count true =
            mask.count true := by
          simp [List.count_append, List.count_replicate]
        rw [h2] at hrec
        omega

lemma buildMask_valid : ∀ (comps : List (List Char)) (segs : List Segment)
    (pos : ℤ) (idx : List ℤ) (mask : List Bool),
    List.Forall₂ TokenDenotes comps segs →
    ∃ I M, buildMask comps pos idx mask = .ok (M.length, I, M) ∧
      (M.length : ℤ) = (mask.length : ℤ) + (segs.map Segment.declaredLen).sum := by
  intro comps segs pos idx mask hf
  induction hf generalizing pos idx mask with
  | nil => exact ⟨idx, mask, by simp [buildMask], by simp⟩
  | @cons tok seg comps' segs' htok hrest ih =>
    obtain ⟨hclass, hlen⟩ := classifyTok_denotes htok
    cases hb : seg.isMotif with
    | true =>
      obtain ⟨I, M, hok, hL⟩ := ih (pos + seg.declaredLen)
        (idx ++ (List.range seg.declaredLen.toNat).map (fun i => pos + Int.ofNat i))
        (mask ++ List.replicate seg.declaredLen.toNat true)
      refine ⟨I, M, ?_, ?_⟩
      · rw [hb] at hclass
        simp only [buildMask, hclass, if_pos rfl]
        exact hok
      · rw [hL]
        simp only [List.length_append, List.length_replicate, List.map_cons,
          List.sum_cons]
        push_cast [Int.toNat_of_nonneg hlen]
        ring
    | false =>
      obtain ⟨I, M, hok, hL⟩ := ih (pos + seg.declaredLen) idx
        (mask ++ List.replicate seg.declaredLen.toNat false)
      refine ⟨I, M, ?_, ?_⟩
      · rw [hb] at hclass
        simp only [buildMask, hclass]
        rw [if_neg (by simp)]
        exact hok
      · rw [hL]
        simp only [List.length_append, List.length_replicate, List.map_cons,
          List.sum_cons]
        push_cast [Int.toNat_of_nonneg hlen]
        ring

/-- C1 -/
theorem c1_total_length_and_mask_count :
    (∀ (contig : String) (segs : List Segment), ValidContig contig segs →
      ∃ I M, generate_indices_and_mask contig = .ok (M.length, I, M) ∧
        (M.length : ℤ) = (segs.map Segment.declaredLen).sum ∧
        M.count true = I.length) ∧
    generate_indices_and_mask "15/A45-65/20/A20-30" =
      .ok (67,
        (List.range' 16 21).map Int.ofNat ++ (List.range' 57 11).map Int.ofNat,
        List.replicate 15 false ++ List.replicate 21 true ++
          List.replicate 20 false ++ List.replicate 11 true) := by
  constructor
  · intro contig segs hv
    obtain ⟨I, M, hok, hlen⟩ := buildMask_valid _ segs 1 [] [] hv
    refine ⟨I, M, hok, by simpa using hlen, ?_⟩
    have := buildMask_count _ 1 [] [] _ _ _ hok
    simpa using this
  · decide

/-- C1 witness -/
theorem c1_witness :
    ∃ I M, generate_indices_and_mask "15/A45-65/20/A20-30" = .ok (M.length, I, M) ∧
      (M.length : ℤ) = (([Segment.scaffold 15, Segment.motif 'A' 45 65,
        Segment.scaffold 20, Segment.motif 'A' 20 30]).map Segment.declaredLen).sum ∧
      M.count true = I.length :=
  c1_total_length_and_mask_count.1 _
    [Segment.scaffold 15, Segment.motif 'A' 45 65,
      Segment.scaffold 20, Segment.motif 'A' 20 30]
    (by
      show List.Forall₂ _ _ _
      have hs : splitOnChar '/' ("15/A45-65/20/A20-30".toList) =
          [['1','5'], ['A','4','5','-','6','5'], ['2','0'],
            ['A','2','0','-','3','0']] := by decide
      rw [hs]
      refine List.Forall₂.cons ?_ (List.Forall₂.cons ?_
        (List.Forall₂.cons ?_ (List.Forall₂.cons ?_ List.Forall₂.nil)))
      · exact TokenDenotes.scaffold ['1','5'] 15 (by decide) (by decide)
          (by decide) (by decide)
      · exact TokenDenotes.motifRange 'A' ['4','5'] ['6','5'] 45 65 (by decide)
          (by decide) (by decide) (by decide) (by decide) (by decide) (by decide)
          (by decide)
      · exact TokenDenotes.scaffold ['2','0'] 20 (by decide) (by decide)
          (by decide) (by decide)
      · exact TokenDenotes.motifRange 'A' ['2','0'] ['3','0'] 20 30 (by decide)
          (by decide) (by decide) (by decide) (by decide) (by decide) (by decide)
          (by decide))

/-- C2 -/
theorem c2_scaffold_range_behavior :
    generate_indices_and_mask "20-20/A1-3" =
      .ok (23, [21, 22, 23], List.replicate 20 false ++ List.replicate 3 true) ∧
    generate_indices_and_mask "10-5/A1-3" = .error PyErr.assertionError := by
  constructor
  · decide
  · decide

/-- C9 counterexample -/
theorem c9_counterexample_O_token :
    tokGoesMotif ['O', '5'] = true ∧ claimMotifHead 'O' = false ∧
    generate_indices_and_mask "O5" = .ok (1, [1], [true]) := by
  refine ⟨by decide, by decide, by decide⟩

/-- C9 amended -/
theorem c9_amended_alphabet_skips_only_I :
    (∀ tok : List Char, tokGoesMotif tok = true ↔
      ∃ c rest, tok = c :: rest ∧ c ∈ ALPHABET) ∧
    ALPHABET =
      ((List.range 26).map (fun i => Char.ofNat (65 + i))).filter
        (fun c => c != 'I') := by
  constructor
  · intro tok
    cases tok with
    | nil => simp [tokGoesMotif]
    | cons c rest =>
      constructor
      · intro h
        exact ⟨c, rest, rfl, of_decide_eq_true h⟩
      · rintro ⟨c', r', heq, hm⟩
        cases heq
        exact decide_eq_true hm
  · decide

/-- C9 amended witness -/
theorem c9_amended_witness :
    ∃ c rest, (['O', '5'] : List Char) = c :: rest ∧ c ∈ ALPHABET :=
  (c9_amended_alphabet_skips_only_I.1 ['O', '5']).mp (by decide)

lemma classifyTok_kk (l : List Char) (hne : l ≠ [])
    (hhead : tokGoesMotif l = false) (hdash : '-' ∉ l) :
    classifyTok (l ++ '-' :: l) = classifyTok l := by
  obtain ⟨c, l', rfl⟩ := List.exists_cons_of_ne_nil hne
  have hdec : (decide (c ∈ ALPHABET)) = false := hhead
  have hsplit : splitOnChar '-' ((c :: l') ++ '-' :: (c :: l')) =
      [c :: l', c :: l'] := by
    rw [splitOnChar_append '-' _ _ hdash, splitOnChar_of_not_mem '-' _ hdash]
  have hmem : '-' ∈ (c :: l') ++ '-' :: (c :: l') := by simp
  simp only [List.cons_append] at hsplit hmem
  simp only [classifyTok, tokGoesMotif, List.cons_append, List.head?_cons,
    hdec, Bool.false_eq_true, if_false, if_pos hmem, if_neg hdash, hsplit,
    List.headD_cons, List.getLastD_cons, List.getLastD_nil]
  simp

/-- C10 -/
theorem c10_kk_token_is_plain_scaffold :
    (∀ (pre suf : List (List Char)) (l : List Char) (pos : ℤ)
      (idx : List ℤ) (mask : List Bool),
      l ≠ [] → tokGoesMotif l = false → '-' ∉ l →
      buildMask (pre ++ (l ++ '-' :: l) :: suf) pos idx mask =
        buildMask (pre ++ l :: suf) pos idx mask) ∧
    generate_indices_and_mask "20-20/A1-3" = generate_indices_and_mask "20/A1-3" ∧
    generate_indices_and_mask "20-20/A1-3" =
      .ok (23, [21, 22, 23],
        List.replicate 20 false ++ List.replicate 3 true) := by
  refine ⟨?_, by decide, by decide⟩
  intro pre suf l pos idx mask hne hhead hdash
  induction pre generalizing pos idx mask with
  | nil =>
    simp only [List.nil_append, buildMask, classifyTok_kk l hne hhead hdash]
  | cons p pre' ih =>
    simp only [List.cons_append, buildMask]
    cases hc : classifyTok p with
    | error e => rfl
    | ok val =>
      obtain ⟨b, len⟩ := val
      cases b with
      | true => exact ih _ _ _
      | false => exact ih _ _ _

/-- C10 witness -/
theorem c10_witness :
    buildMask ([] ++ (['2','0'] ++ '-' :: ['2','0']) :: [['A','1','-','3']])
        1 [] [] =
      buildMask ([] ++ ['2','0'] :: [['A','1','-','3']]) 1 [] [] :=
  c10_kk_token_is_plain_scaffold.1 [] [['A','1','-','3']] ['2','0'] 1 [] []
    (by decide) (by decide) (by decide)


/-- C3 -/
theorem c3_success_criteria :
    (∀ r : EvalRow,
      (seq_backbone_hit r = true ↔ r.rmsd < 2) ∧
      (seq_motif_hit r = true ↔ r.motif_rmsd < 1) ∧
      (seq_hit r = true ↔
        (seq_backbone_hit r = true ∧ seq_motif_hit r = true))) ∧
    (seq_hit ⟨1.5, 0.8⟩ = true ∧ seq_backbone_hit ⟨1.5, 0.8⟩ = true ∧
      seq_motif_hit ⟨1.5, 0.8⟩ = true) ∧
    (seq_hit ⟨2.5, 0.5⟩ = false ∧ seq_backbone_hit ⟨2.5, 0.5⟩ = false ∧
      seq_motif_hit ⟨2.5, 0.5⟩ = true) := by
  refine ⟨?_, ?_, ?_⟩
  · intro r
    refine ⟨by simp [seq_backbone_hit], by simp [seq_motif_hit], ?_⟩
    simp [seq_hit, seq_backbone_hit, seq_motif_hit]
  · refine ⟨?_, ?_, ?_⟩ <;> norm_num [seq_hit, seq_backbone_hit, seq_motif_hit]
  · refine ⟨?_, ?_, ?_⟩ <;> norm_num [seq_hit, seq_backbone_hit, seq_motif_hit]

/-- C4 -/
theorem c4_retry_bound_eval :
    mpnnRetry (fun _ => none) 20 = some (.raised 5) ∧
    af2Retry (fun _ => none) 20 = some (.raised 11) ∧
    af2Retry (fun i => if i < 5 then none else some 0) 20 =
      some (.completed 0 6) := by
  refine ⟨by decide, by decide, by decide⟩

lemma run_sampling_dirs_mono (outBase : List Char)
    (readFile : List Char → List Char) :
    ∀ (l : List (List Char)) (fs : FS),
      fs.dirs ⊆ (run_sampling outBase readFile l fs).1.dirs := by
  intro l
  induction l with
  | nil => intro fs; simp [run_sampling]
  | cons f rest ih =>
    intro fs
    simp only [run_sampling]
    split
    · exact ih fs
    · intro d hd
      exact ih _ (by simp [hd])

lemma run_sampling_no_sc (outBase : List Char)
    (readFile : List Char → List Char) (n : List Char) :
    ∀ (l : List (List Char)) (fs : FS),
      (outBase ++ '/' :: n) ∈ fs.dirs →
      SampOp.selfConsistency n ∉ (run_sampling outBase readFile l fs).2 := by
  intro l
  induction l with
  | nil => intro fs _; simp [run_sampling]
  | cons f rest ih =>
    intro fs hmem
    simp only [run_sampling]
    split
    · exact ih fs hmem
    · rename_i hnot
      intro hop
      simp only [List.mem_cons] at hop
      rcases hop with h | h | h | h | h | h
      · exact absurd h (by simp)
      · exact absurd h (by simp)
      · exact absurd h (by simp)
      · exact absurd h (by simp)
      · have hdf : n = dropExt f := by injection h
        exact hnot (hdf ▸ hmem)
      · exact ih _ (by simp [hmem]) h

lemma mem_dropExt {a : Char} {f : List Char} (h : a ∈ dropExt f) : a ∈ f := by
  unfold dropExt at h
  split at h
  · have h1 : a ∈ (f.reverse.dropWhile (fun c => c ≠ '.')).tail :=
      List.mem_reverse.mp h
    have h2 : List.Sublist (f.reverse.dropWhile (fun c => c ≠ '.')).tail
        f.reverse :=
      (List.tail_sublist _).trans (List.dropWhile_sublist _)
    exact List.mem_reverse.mp (h2.subset h1)
  · exact h

lemma slash_not_mem_dropExt {f : List Char} (h : '/' ∉ f) :
    '/' ∉ dropExt f := fun hm => h (mem_dropExt hm)

lemma run_sampling_files_pres (outBase : List Char)
    (readFile : List Char → List Char) (n₀ : List Char) (hn₀ : '/' ∉ n₀) :
    ∀ (l : List (List Char)) (fs : FS),
      (∀ f ∈ l, '/' ∉ f) →
      (outBase ++ '/' :: n₀) ∈ fs.dirs →
      (run_sampling outBase readFile l fs).1.files.filter
          (fun e => decide (e.1.1 = outBase ++ '/' :: n₀ ∨
            e.1.1 = (outBase ++ '/' :: n₀) ++ '/' :: scSub)) =
        fs.files.filter
          (fun e => decide (e.1.1 = outBase ++ '/' :: n₀ ∨
            e.1.1 = (outBase ++ '/' :: n₀) ++ '/' :: scSub)) := by
  intro l
  induction l with
  | nil => intro fs _ _; rfl
  | cons f rest ih =>
    intro fs hsl hmem
    have hslf : '/' ∉ f := hsl f (List.mem_cons_self f rest)
    have hslrest : ∀ g ∈ rest, '/' ∉ g :=
      fun g hg => hsl g (List.mem_cons_of_mem f hg)
    simp only [run_sampling]
    split
    · exact ih fs hslrest hmem
    · rename_i hnot
      rw [ih _ hslrest (by simp [hmem])]
      have hne1 : ¬ (outBase ++ '/' :: dropExt f = outBase ++ '/' :: n₀ ∨
          outBase ++ '/' :: dropExt f =
            (outBase ++ '/' :: n₀) ++ '/' :: scSub) := by
        rintro (h | h)
        · have h2 := List.append_cancel_left h
          have hdf : dropExt f = n₀ := by injection h2
          exact hnot (hdf ▸ hmem)
        · rw [List.append_assoc] at h
          have h2 := List.append_cancel_left h
          have hns : dropExt f = n₀ ++ '/' :: scSub := by injection h2
          have hin : '/' ∈ dropExt f := by rw [hns]; simp
          exact slash_not_mem_dropExt hslf hin
      have hne2 : ¬ ((outBase ++ '/' :: dropExt f) ++ '/' :: scSub =
            outBase ++ '/' :: n₀ ∨
          (outBase ++ '/' :: dropExt f) ++ '/' :: scSub =
            (outBase ++ '/' :: n₀) ++ '/' :: scSub) := by
        rintro (h | h)
        · rw [List.append_assoc] at h
          have h2 := List.append_cancel_left h
          have hns : dropExt f ++ '/' :: scSub = n₀ := by injection h2
          have hin : '/' ∈ n₀ := by rw [← hns]; simp
          exact hn₀ hin
        · rw [List.append_assoc, List.append_assoc] at h
          have h2 := List.append_cancel_left h
          have h3 : dropExt f ++ '/' :: scSub = n₀ ++ '/' :: scSub := by
            injection h2
          have hdf : dropExt f = n₀ := List.append_cancel_right h3
          exact hnot (hdf ▸ hmem)
      simp only [List.filter_append, List.filter_cons, List.filter_nil,
        decide_eq_true_eq]
      rw [if_neg hne1, if_neg hne2]
      simp

lemma run_sampling_processes (outBase : List Char)
    (readFile : List Char → List Char) :
    ∀ (l : List (List Char)) (fs : FS),
      (∀ f ∈ l, '/' ∉ f) → (l.map dropExt).Nodup →
      ∀ f1 ∈ l, (outBase ++ '/' :: dropExt f1) ∉ fs.dirs →
        SampOp.selfConsistency (dropExt f1) ∈
          (run_sampling outBase readFile l fs).2 := by
  intro l
  induction l with
  | nil => intro fs _ _ f1 h; exact absurd h (by simp)
  | cons f rest ih =>
    intro fs hsl hnd f1 hf1 hnotin
    have hslrest : ∀ g ∈ rest, '/' ∉ g :=
      fun g hg => hsl g (List.mem_cons_of_mem f hg)
    have hndrest : (rest.map dropExt).Nodup :=
      (List.nodup_cons.mp (by simpa using hnd)).2
    simp only [run_sampling]
    split
    · rename_i hin
      rcases List.mem_cons.mp hf1 with rfl | hf1r
      · exact absurd hin hnotin
      · exact ih fs hslrest hndrest f1 hf1r hnotin
    · rename_i hnot
      by_cases hdeq : dropExt f1 = dropExt f
      · simp [hdeq]
      · rcases List.mem_cons.mp hf1 with rfl | hf1r
        · exact absurd rfl hdeq
        · have hslf1 : '/' ∉ dropExt f1 :=
            slash_not_mem_dropExt (hslrest f1 hf1r)
          have hin1 : (outBase ++ '/' :: dropExt f1) ∉
              ((outBase ++ '/' :: dropExt f) ++ '/' :: scSub) ::
                (outBase ++ '/' :: dropExt f) :: fs.dirs := by
            simp only [List.mem_cons]
            rintro (h | h | h)
            · rw [List.append_assoc] at h
              have h2 := List.append_cancel_left h
              have hns : dropExt f1 = dropExt f ++ '/' :: scSub := by
                injection h2
              have hin : '/' ∈ dropExt f1 := by rw [hns]; simp
              exact hslf1 hin
            · have h2 := List.append_cancel_left h
              have hdf : dropExt f1 = dropExt f := by injection h2
              exact hdeq hdf
            · exact hnotin h
          have hres := ih
            (FS.mk
              (((outBase ++ '/' :: dropExt f) ++ '/' :: scSub) ::
                (outBase ++ '/' :: dropExt f) :: fs.dirs)
              (fs.files ++ [(((outBase ++ '/' :: dropExt f), f), readFile f),
                (((outBase ++ '/' :: dropExt f) ++ '/' :: scSub, f),
                  readFile f)]))
            hslrest hndrest f1 hf1r hin1
          simp only [List.mem_cons]
          tauto

/-- C5 -/
theorem c5_skip_existing_backbone_dir
    (outBase : List Char) (readFile : List Char → List Char)
    (listing : List (List Char)) (fs : FS) (f0 : List Char)
    (hmem : f0 ∈ listing)
    (hslash : ∀ f ∈ listing, '/' ∉ f)
    (hnodup : (listing.map dropExt).Nodup)
    (hexists : (outBase ++ '/' :: dropExt f0) ∈ fs.dirs)
    (_hnonempty : ∃ g c, ((outBase ++ '/' :: dropExt f0, g), c) ∈ fs.files) :
    SampOp.selfConsistency (dropExt f0) ∉
        (run_sampling outBase readFile listing fs).2 ∧
    (run_sampling outBase readFile listing fs).1.files.filter
        (fun e => decide (e.1.1 = outBase ++ '/' :: dropExt f0 ∨
          e.1.1 = (outBase ++ '/' :: dropExt f0) ++ '/' :: scSub)) =
      fs.files.filter
        (fun e => decide (e.1.1 = outBase ++ '/' :: dropExt f0 ∨
          e.1.1 = (outBase ++ '/' :: dropExt f0) ++ '/' :: scSub)) ∧
    (∀ f1 ∈ listing, (outBase ++ '/' :: dropExt f1) ∉ fs.dirs →
      SampOp.selfConsistency (dropExt f1) ∈
        (run_sampling outBase readFile listing fs).2) :=
  ⟨run_sampling_no_sc outBase readFile _ listing fs hexists,
    run_sampling_files_pres outBase readFile _
      (slash_not_mem_dropExt (hslash f0 hmem)) listing fs hslash hexists,
    run_sampling_processes outBase readFile listing fs hslash hnodup⟩

/-- C5 witness -/
theorem c5_witness :
    (['o', '/', 'a'] : List Char) ∈
      (FS.mk [['o', '/', 'a']] [((['o', '/', 'a'], ['r']), ['x'])]).dirs ∧
    SampOp.selfConsistency (dropExt ['a', '.', 'p', 'd', 'b']) ∉
      (run_sampling ['o'] (fun _ => [])
        [['a', '.', 'p', 'd', 'b'], ['b', '.', 'p', 'd', 'b']]
        (FS.mk [['o', '/', 'a']] [((['o', '/', 'a'], ['r']), ['x'])])).2 ∧
    SampOp.selfConsistency (dropExt ['b', '.', 'p', 'd', 'b']) ∈
      (run_sampling ['o'] (fun _ => [])
        [['a', '.', 'p', 'd', 'b'], ['b', '.', 'p', 'd', 'b']]
        (FS.mk [['o', '/', 'a']] [((['o', '/', 'a'], ['r']), ['x'])])).2 := by
  have h := c5_skip_existing_backbone_dir ['o'] (fun _ => [])
    [['a', '.', 'p', 'd', 'b'], ['b', '.', 'p', 'd', 'b']]
    (FS.mk [['o', '/', 'a']] [((['o', '/', 'a'], ['r']), ['x'])])
    ['a', '.', 'p', 'd', 'b']
    (by decide)
    (by intro f hf; fin_cases hf <;> decide)
    (by decide)
    (by decide)
    ⟨['r'], ['x'], by decide⟩
  exact ⟨by decide, h.1,
    h.2.2 ['b', '.', 'p', 'd', 'b'] (by decide) (by decide)⟩

lemma csvMergeLoop_error (pfx : String) :
    ∀ (walk : List WalkDir) (acc : List (String × Option String)) (cnt : ℕ)
      (d : WalkDir), d ∈ walk →
      (pfx ++ "_eval_results.csv") ∈ d.files → d.parentPdbs.length > 1 →
      csvMergeLoop pfx walk acc cnt = .error .runtimeError := by
  intro walk
  induction walk with
  | nil => intro acc cnt d h; exact absurd h (by simp)
  | cons w rest ih =>
    intro acc cnt d hd hcsv hlen
    simp only [csvMergeLoop]
    rcases List.mem_cons.mp hd with rfl | hdr
    · rw [if_pos hcsv, if_pos hlen]
    · split
      · split
        · rfl
        · exact ih _ _ d hdr hcsv hlen
      · exact ih _ _ d hdr hcsv hlen

lemma csvMergeLoop_ok (pfx : String) :
    ∀ (walk : List WalkDir) (acc : List (String × Option String)) (cnt : ℕ),
      (∀ d ∈ walk, (pfx ++ "_eval_results.csv") ∈ d.files →
        d.parentPdbs.length ≤ 1) →
      csvMergeLoop pfx walk acc cnt =
        .ok (acc ++ specMergedRows pfx walk,
          cnt + (walk.filter
            (fun d =>
              decide ((pfx ++ "_eval_results.csv") ∈ d.files))).length) := by
  intro walk
  induction walk with
  | nil => intro acc cnt _; simp [csvMergeLoop, specMergedRows]
  | cons w rest ih =>
    intro acc cnt hb
    have hbrest : ∀ d ∈ rest, (pfx ++ "_eval_results.csv") ∈ d.files →
        d.parentPdbs.length ≤ 1 :=
      fun d hd => hb d (List.mem_cons_of_mem w hd)
    simp only [csvMergeLoop]
    by_cases hcsv : (pfx ++ "_eval_results.csv") ∈ w.files
    · rw [if_pos hcsv,
        if_neg (by simpa using hb w (List.mem_cons_self w rest) hcsv)]
      rw [ih _ _ hbrest]
      simp only [specMergedRows, List.filter_cons, decide_eq_true_eq,
        if_pos hcsv, List.map_cons, List.flatten_cons, List.length_cons,
        Except.ok.injEq, Prod.mk.injEq]
      exact ⟨by rw [List.append_assoc], by omega⟩
    · rw [if_neg hcsv, ih _ _ hbrest]
      simp only [specMergedRows, List.filter_cons, decide_eq_true_eq,
        if_neg hcsv]

/-- C8 -/
theorem c8_merge_single_structure_tagging :
    (∀ (pfx : String) (walk : List WalkDir) (d : WalkDir),
      pfx ∈ ["esm", "af2", "joint"] → d ∈ walk →
      (pfx ++ "_eval_results.csv") ∈ d.files → d.parentPdbs.length > 1 →
      csv_merge pfx walk = .error .runtimeError) ∧
    (∀ (pfx : String) (walk : List WalkDir),
      pfx ∈ ["esm", "af2", "joint"] →
      (∀ d ∈ walk, (pfx ++ "_eval_results.csv") ∈ d.files →
        d.parentPdbs.length ≤ 1) →
      csv_merge pfx walk =
        .ok (specMergedRows pfx walk,
          (walk.filter
            (fun d =>
              decide ((pfx ++ "_eval_results.csv") ∈ d.files))).length)) := by
  constructor
  · intro pfx walk d hpfx hd hcsv hlen
    rw [csv_merge, if_pos hpfx]
    exact csvMergeLoop_error pfx walk [] 0 d hd hcsv hlen
  · intro pfx walk hpfx hb
    rw [csv_merge, if_pos hpfx, csvMergeLoop_ok pfx walk [] 0 hb]
    simp

/-- C8 witness -/
theorem c8_witness :
    csv_merge "esm" [⟨["esm_eval_results.csv"], ["row1", "row2"], ["p.pdb"]⟩,
        ⟨["esm_eval_results.csv"], ["row3"], []⟩] =
      .ok ([("row1", some "p.pdb"), ("row2", some "p.pdb"),
        ("row3", none)], 2) ∧
    csv_merge "esm" [⟨["esm_eval_results.csv"], ["row1"],
        ["p.pdb", "q.pdb"]⟩] = .error .runtimeError := by
  constructor
  · have h := c8_merge_single_structure_tagging.2 "esm"
      [⟨["esm_eval_results.csv"], ["row1", "row2"], ["p.pdb"]⟩,
        ⟨["esm_eval_results.csv"], ["row3"], []⟩]
      (by decide) (by intro d hd; fin_cases hd <;> simp)
    rw [h]
    simp [specMergedRows]
  · exact c8_merge_single_structure_tagging.1 "esm" _
      ⟨["esm_eval_results.csv"], ["row1"], ["p.pdb", "q.pdb"]⟩
      (by decide) (by simp) (by simp) (by simp)


lemma det_negLastRow {K : Type} [LinearOrderedField K]
    (Vt : Matrix (Fin 3) (Fin 3) K) : (negLastRow Vt).det = -Vt.det := by
  unfold negLastRow
  have h : (fun j => -(Vt 2 j)) = (-1 : K) • (Vt 2) := by
    funext j; simp
  rw [h, Matrix.det_updateRow_smul, Matrix.updateRow_eq_self]
  ring

lemma computeRotation_det {K : Type} [LinearOrderedField K]
    (U Vt : Matrix (Fin 3) (Fin 3) K)
    (hU : Uᵀ * U = 1) (hV : Vtᵀ * Vt = 1) :
    ((computeRotation U Vt).1).det = 1 := by
  have hdU : U.det * U.det = 1 := by
    have h := congrArg Matrix.det hU
    rwa [Matrix.det_mul, Matrix.det_transpose, Matrix.det_one] at h
  have hdV : Vt.det * Vt.det = 1 := by
    have h := congrArg Matrix.det hV
    rwa [Matrix.det_mul, Matrix.det_transpose, Matrix.det_one] at h
  have hU1 : U.det = 1 ∨ U.det = -1 := mul_self_eq_one_iff.mp hdU
  have hV1 : Vt.det = 1 ∨ Vt.det = -1 := mul_self_eq_one_iff.mp hdV
  have hraw : (Vtᵀ * Uᵀ).det = Vt.det * U.det := by
    rw [Matrix.det_mul, Matrix.det_transpose, Matrix.det_transpose]
  simp only [computeRotation]
  split
  · rename_i hlt
    rw [hraw] at hlt
    have hcorr : ((negLastRow Vt)ᵀ * Uᵀ).det = -(Vt.det * U.det) := by
      rw [Matrix.det_mul, Matrix.det_transpose, Matrix.det_transpose,
        det_negLastRow]
      ring
    rcases hU1 with h1 | h1 <;> rcases hV1 with h2 | h2 <;>
      rw [h1, h2] at hlt hcorr <;> norm_num at hlt hcorr ⊢ <;>
      simpa using hcorr
  · rename_i hge
    rw [hraw] at hge ⊢
    rcases hU1 with h1 | h1 <;> rcases hV1 with h2 | h2 <;>
      rw [h1, h2] at hge ⊢ <;> norm_num at hge ⊢

/-- C6 -/
theorem c6_rotation_is_proper {n : ℕ} (A B : Matrix (Fin n) (Fin 3) ℝ)
    (U Vt : Matrix (Fin 3) (Fin 3) ℝ)
    (hU : Uᵀ * U = 1) (hV : Vtᵀ * Vt = 1) :
    ((rigid_transform_3D A B U Vt).2.1).det = 1 :=
  computeRotation_det U Vt hU hV

/-- C6 witness -/
theorem c6_witness :
    ((1 : Matrix (Fin 3) (Fin 3) ℝ)ᵀ * 1 = 1) ∧
    ((Matrix.of ![![(1 : ℝ), 0, 0], ![0, 1, 0], ![0, 0, -1]])ᵀ *
      Matrix.of ![![(1 : ℝ), 0, 0], ![0, 1, 0], ![0, 0, -1]] = 1) ∧
    ((rigid_transform_3D (Matrix.of ![![(0 : ℝ), 0, 0]])
        (Matrix.of ![![(0 : ℝ), 0, 0]]) 1
        (Matrix.of ![![(1 : ℝ), 0, 0], ![0, 1, 0], ![0, 0, -1]])).2.1).det =
      1 := by
  have h1 : (1 : Matrix (Fin 3) (Fin 3) ℝ)ᵀ * 1 = 1 := by simp
  have h2 : (Matrix.of ![![(1 : ℝ), 0, 0], ![0, 1, 0], ![0, 0, -1]])ᵀ *
      Matrix.of ![![(1 : ℝ), 0, 0], ![0, 1, 0], ![0, 0, -1]] = 1 := by
    have ht : (Matrix.of ![![(1 : ℝ), 0, 0], ![0, 1, 0], ![0, 0, -1]])ᵀ =
        Matrix.of ![![(1 : ℝ), 0, 0], ![0, 1, 0], ![0, 0, -1]] := by
      ext i j
      fin_cases i <;> fin_cases j <;> rfl
    rw [ht]
    ext i j
    fin_cases i <;> fin_cases j <;>
      simp [Matrix.mul_apply, Fin.sum_univ_three, Matrix.one_apply,
        Matrix.vecHead, Matrix.vecTail]
  exact ⟨h1, h2,
    c6_rotation_is_proper (Matrix.of ![![(0 : ℝ), 0, 0]])
      (Matrix.of ![![(0 : ℝ), 0, 0]]) 1
      (Matrix.of ![![(1 : ℝ), 0, 0], ![0, 1, 0], ![0, 0, -1]]) h1 h2⟩

lemma conjT_real {p q : ℕ} (M : Matrix (Fin p) (Fin q) ℝ) : Mᴴ = Mᵀ := by
  ext i j
  simp [Matrix.conjTranspose_apply]

lemma centroid_rigid {n : ℕ} (hn : 0 < n) (A B : Matrix (Fin n) (Fin 3) ℝ)
    (R₀ : Matrix (Fin 3) (Fin 3) ℝ) (t₀ : Fin 3 → ℝ)
    (hA : ∀ i j, A i j = (∑ k, R₀ j k * B i k) + t₀ j) (i : Fin 3) :
    centroid Aᵀ i = (∑ k, R₀ i k * centroid Bᵀ k) + t₀ i := by
  have hne : (n : ℝ) ≠ 0 := Nat.cast_ne_zero.mpr hn.ne'
  unfold centroid
  simp only [Matrix.transpose_apply]
  have h1 : (∑ j, A j i) = (∑ k, R₀ i k * (∑ j, B j k)) + n * t₀ i := by
    calc ∑ j, A j i = ∑ j, ((∑ k, R₀ i k * B j k) + t₀ i) :=
          Finset.sum_congr rfl (fun j _ => hA j i)
      _ = (∑ j, ∑ k, R₀ i k * B j k) + ∑ _j : Fin n, t₀ i := by
          rw [Finset.sum_add_distrib]
      _ = (∑ k, ∑ j, R₀ i k * B j k) + n * t₀ i := by
          rw [Finset.sum_comm]
          congr 1
          simp [Finset.sum_const, Finset.card_univ, mul_comm]
      _ = (∑ k, R₀ i k * (∑ j, B j k)) + n * t₀ i := by
          congr 1
          exact Finset.sum_congr rfl (fun k _ => (Finset.mul_sum _ _ _).symm)
  rw [h1, add_div]
  congr 1
  · rw [Finset.sum_div]
    exact Finset.sum_congr rfl (fun k _ => by ring)
  · field_simp

lemma centered_rigid {n : ℕ} (hn : 0 < n) (A B : Matrix (Fin n) (Fin 3) ℝ)
    (R₀ : Matrix (Fin 3) (Fin 3) ℝ) (t₀ : Fin 3 → ℝ)
    (hA : ∀ i j, A i j = (∑ k, R₀ j k * B i k) + t₀ j) :
    centered Aᵀ = R₀ * centered Bᵀ := by
  ext i j
  simp only [centered, Matrix.transpose_apply, Matrix.mul_apply]
  rw [hA j i, centroid_rigid hn A B R₀ t₀ hA i]
  have hterm : ∀ k ∈ Finset.univ,
      R₀ i k * (B j k - centroid Bᵀ k) =
        R₀ i k * B j k - R₀ i k * centroid Bᵀ k :=
    fun k _ => by ring
  rw [Finset.sum_congr rfl hterm, Finset.sum_sub_distrib]
  ring

lemma computeRotation_mul_centered {n : ℕ} (hn : 0 < n)
    (A B : Matrix (Fin n) (Fin 3) ℝ) (R₀ : Matrix (Fin 3) (Fin 3) ℝ)
    (t₀ : Fin 3 → ℝ) (U Vt : Matrix (Fin 3) (Fin 3) ℝ) (s : Fin 3 → ℝ)
    (hA : ∀ i j, A i j = (∑ k, R₀ j k * B i k) + t₀ j)
    (hR₀ : R₀ᵀ * R₀ = 1) (hdet : R₀.det = 1)
    (hU : Uᵀ * U = 1) (hV : Vtᵀ * Vt = 1)
    (hSVD : covH A B = U * Matrix.diagonal s * Vt)
    (hs : ∀ i, 0 ≤ s i)
    (hsmono : ∀ i j : Fin 3, i ≤ j → s j ≤ s i) :
    (computeRotation U Vt).1 * centered Aᵀ = centered Bᵀ := by
  have hVV : Vt * Vtᵀ = 1 := Matrix.mul_eq_one_comm.mp hV
  have hUU : U * Uᵀ = 1 := Matrix.mul_eq_one_comm.mp hU
  have hVtV : ∀ (p : ℕ) (X : Matrix (Fin 3) (Fin p) ℝ),
      Vtᵀ * (Vt * X) = X := by
    intro p X; rw [← Matrix.mul_assoc, hV, Matrix.one_mul]
  have hVVt : ∀ (p : ℕ) (X : Matrix (Fin 3) (Fin p) ℝ),
      Vt * (Vtᵀ * X) = X := by
    intro p X; rw [← Matrix.mul_assoc, hVV, Matrix.one_mul]
  have hUtU : ∀ (p : ℕ) (X : Matrix (Fin 3) (Fin p) ℝ),
      Uᵀ * (U * X) = X := by
    intro p X; rw [← Matrix.mul_assoc, hU, Matrix.one_mul]
  have hR0tR0 : ∀ (p : ℕ) (X : Matrix (Fin 3) (Fin p) ℝ),
      R₀ᵀ * (R₀ * X) = X := by
    intro p X; rw [← Matrix.mul_assoc, hR₀, Matrix.one_mul]
  have hAm : centered Aᵀ = R₀ * centered Bᵀ :=
    centered_rigid hn A B R₀ t₀ hA
  have hH : R₀ * (centered Bᵀ * (centered Bᵀ)ᵀ) =
      U * Matrix.diagonal s * Vt := by
    have hc : covH A B = R₀ * (centered Bᵀ * (centered Bᵀ)ᵀ) := by
      rw [covH, hAm, Matrix.mul_assoc]
    rw [← hc, hSVD]
  have hGsym : (centered Bᵀ * (centered Bᵀ)ᵀ)ᵀ =
      centered Bᵀ * (centered Bᵀ)ᵀ := by
    rw [Matrix.transpose_mul, Matrix.transpose_transpose]
  have hGpsd : (centered Bᵀ * (centered Bᵀ)ᵀ).PosSemidef := by
    have h := Matrix.posSemidef_self_mul_conjTranspose (centered Bᵀ)
    rwa [conjT_real] at h
  have hSpsd : (Matrix.diagonal s).PosSemidef :=
    Matrix.posSemidef_diagonal_iff.mpr hs
  have hG2psd : (Vtᵀ * Matrix.diagonal s * Vt).PosSemidef := by
    have h := hSpsd.conjTranspose_mul_mul_same Vt
    rwa [conjT_real] at h
  have hsq : (centered Bᵀ * (centered Bᵀ)ᵀ) ^ 2 =
      (Vtᵀ * Matrix.diagonal s * Vt) ^ 2 := by
    have e := congrArg (fun M => Mᵀ * M) hH
    simp only [Matrix.transpose_mul, Matrix.transpose_transpose,
      Matrix.mul_assoc] at e
    rw [hR0tR0, hUtU, Matrix.diagonal_transpose] at e
    rw [pow_two, pow_two]
    simp only [Matrix.mul_assoc]
    rw [e, hVVt]
  have hGeq : centered Bᵀ * (centered Bᵀ)ᵀ =
      Vtᵀ * Matrix.diagonal s * Vt :=
    hGpsd.eq_of_sq_eq_sq hG2psd hsq
  have h1 : R₀ * (Vtᵀ * (Matrix.diagonal s * Vt)) =
      U * (Matrix.diagonal s * Vt) := by
    have h := hH
    rw [hGeq] at h
    simpa only [Matrix.mul_assoc] using h
  have h2 : R₀ * (Vtᵀ * Matrix.diagonal s) = U * Matrix.diagonal s := by
    have h := congrArg (fun M => M * Vtᵀ) h1
    simp only [Matrix.mul_assoc] at h
    rw [hVV] at h
    simpa only [Matrix.mul_one] using h
  have hWS : Uᵀ * (R₀ * Vtᵀ) * Matrix.diagonal s = Matrix.diagonal s := by
    simp only [Matrix.mul_assoc]
    rw [h2, hUtU]
  have hWent : ∀ i j, s j ≠ 0 →
      (Uᵀ * (R₀ * Vtᵀ)) i j = if i = j then 1 else 0 := by
    intro i j hsj
    have h := congrFun (congrFun hWS i) j
    rw [Matrix.mul_diagonal] at h
    by_cases hij : i = j
    · subst hij
      rw [Matrix.diagonal_apply_eq] at h
      have h1 := mul_right_cancel₀ hsj (h.trans (one_mul (s i)).symm)
      simp [h1]
    · rw [Matrix.diagonal_apply_ne _ hij] at h
      rcases mul_eq_zero.mp h with h0 | h0
      · simp [hij, h0]
      · exact absurd h0 hsj
  have hCC : (Vt * centered Bᵀ) * (Vt * centered Bᵀ)ᵀ =
      Matrix.diagonal s := by
    calc (Vt * centered Bᵀ) * (Vt * centered Bᵀ)ᵀ
        = Vt * ((centered Bᵀ * (centered Bᵀ)ᵀ) * Vtᵀ) := by
          rw [Matrix.transpose_mul]
          simp only [Matrix.mul_assoc]
      _ = Vt * (Vtᵀ * (Matrix.diagonal s * (Vt * Vtᵀ))) := by
          rw [hGeq]
          simp only [Matrix.mul_assoc]
      _ = Matrix.diagonal s := by
          rw [hVV, Matrix.mul_one, hVVt]
  have hCzero : ∀ j, s j = 0 → ∀ m, (Vt * centered Bᵀ) j m = 0 := by
    intro j hsj m
    have hdiag : ((Vt * centered Bᵀ) * (Vt * centered Bᵀ)ᵀ) j j = 0 := by
      rw [hCC, Matrix.diagonal_apply_eq, hsj]
    rw [Matrix.mul_apply] at hdiag
    simp only [Matrix.transpose_apply] at hdiag
    have hnonneg : ∀ k ∈ Finset.univ,
        (0 : ℝ) ≤ (Vt * centered Bᵀ) j k * (Vt * centered Bᵀ) j k :=
      fun k _ => mul_self_nonneg _
    exact mul_self_eq_zero.mp
      ((Finset.sum_eq_zero_iff_of_nonneg hnonneg).mp hdiag m
        (Finset.mem_univ m))
  have hWC : (Uᵀ * (R₀ * Vtᵀ)) * (Vt * centered Bᵀ) = Vt * centered Bᵀ := by
    ext i m
    rw [Matrix.mul_apply]
    have hterm : ∀ j ∈ Finset.univ,
        (Uᵀ * (R₀ * Vtᵀ)) i j * (Vt * centered Bᵀ) j m =
          if i = j then (Vt * centered Bᵀ) j m else 0 := by
      intro j _
      by_cases hsj : s j = 0
      · rw [hCzero j hsj m]
        simp
      · rw [hWent i j hsj]
        by_cases hij : i = j <;> simp [hij]
    rw [Finset.sum_congr rfl hterm, Finset.sum_ite_eq]
    simp
  have hBmC : centered Bᵀ = Vtᵀ * (Vt * centered Bᵀ) := (hVtV _ _).symm
  have hdetW : (Uᵀ * (R₀ * Vtᵀ)).det = (Vtᵀ * Uᵀ).det := by
    rw [Matrix.det_mul, Matrix.det_mul, Matrix.det_mul, hdet]
    ring
  have hcore : ∀ Vt₂ : Matrix (Fin 3) (Fin 3) ℝ,
      (∀ j, j ≠ (2 : Fin 3) → Vt₂ j = Vt j) →
      (s 2 = 0 ∨ Vt₂ 2 = Vt 2) →
      Vt₂ᵀ * Uᵀ * (R₀ * centered Bᵀ) = centered Bᵀ := by
    intro Vt₂ hrow hlast
    have hstep : Uᵀ * (R₀ * centered Bᵀ) =
        (Uᵀ * (R₀ * Vtᵀ)) * (Vt * centered Bᵀ) := by
      conv_lhs => rw [hBmC]
      simp only [Matrix.mul_assoc]
    calc Vt₂ᵀ * Uᵀ * (R₀ * centered Bᵀ)
        = Vt₂ᵀ * ((Uᵀ * (R₀ * Vtᵀ)) * (Vt * centered Bᵀ)) := by
          rw [Matrix.mul_assoc, hstep]
      _ = Vt₂ᵀ * (Vt * centered Bᵀ) := by rw [hWC]
      _ = Vtᵀ * (Vt * centered Bᵀ) := by
          ext i m
          rw [Matrix.mul_apply, Matrix.mul_apply]
          refine Finset.sum_congr rfl ?_
          intro j _
          by_cases hj2 : j = 2
          · subst hj2
            rcases hlast with hs2 | hVt2
            · rw [Matrix.transpose_apply, Matrix.transpose_apply,
                hCzero 2 hs2 m]
              ring
            · rw [Matrix.transpose_apply, Matrix.transpose_apply, hVt2]
          · rw [Matrix.transpose_apply, Matrix.transpose_apply, hrow j hj2]
      _ = centered Bᵀ := hBmC.symm
  rw [hAm]
  simp only [computeRotation]
  split
  · rename_i hlt
    have hs2 : s 2 = 0 := by
      by_contra hs2ne
      have hall : ∀ j : Fin 3, s j ≠ 0 := by
        intro j hj0
        have hj2 : j ≤ (2 : Fin 3) := Fin.le_def.mpr (by omega)
        have hle : s 2 ≤ s j := hsmono j 2 hj2
        exact hs2ne (le_antisymm (hj0 ▸ hle) (hs 2))
      have hW1 : Uᵀ * (R₀ * Vtᵀ) = 1 := by
        ext i j
        rw [hWent i j (hall j)]
        simp [Matrix.one_apply]
      have hd1 : (Vtᵀ * Uᵀ).det = 1 := by
        rw [← hdetW, hW1, Matrix.det_one]
      rw [hd1] at hlt
      norm_num at hlt
    exact hcore (negLastRow Vt)
      (fun j hj => Matrix.updateRow_ne hj) (Or.inl hs2)
  · exact hcore Vt (fun j _ => rfl) (Or.inr rfl)

/-- C7 -/
theorem c7_rigid_invariance_rmsd_zero {n : ℕ} (hn : 0 < n)
    (A B : Matrix (Fin n) (Fin 3) ℝ) (R₀ : Matrix (Fin 3) (Fin 3) ℝ)
    (t₀ : Fin 3 → ℝ) (U Vt : Matrix (Fin 3) (Fin 3) ℝ) (s : Fin 3 → ℝ)
    (hA : ∀ i j, A i j = (∑ k, R₀ j k * B i k) + t₀ j)
    (hR₀ : R₀ᵀ * R₀ = 1) (hdet : R₀.det = 1)
    (hU : Uᵀ * U = 1) (hV : Vtᵀ * Vt = 1)
    (hSVD : covH A B = U * Matrix.diagonal s * Vt)
    (hs : ∀ i, 0 ≤ s i)
    (hsmono : ∀ i j : Fin 3, i ≤ j → s j ≤ s i) :
    calc_aligned_rmsd A B U Vt = 0 := by
  have hRAm := computeRotation_mul_centered hn A B R₀ t₀ U Vt s hA hR₀
    hdet hU hV hSVD hs hsmono
  have hopt : (rigid_transform_3D A B U Vt).1 = B := by
    ext i j
    simp only [rigid_transform_3D, Matrix.transpose_apply]
    have hentry := congrFun (congrFun hRAm j) i
    rw [Matrix.mul_apply] at hentry
    simp only [centered, Matrix.transpose_apply] at hentry
    have hsplit : ∑ k, (computeRotation U Vt).1 j k * (A i k - centroid Aᵀ k)
        = (∑ k, (computeRotation U Vt).1 j k * A i k) -
          ∑ k, (computeRotation U Vt).1 j k * centroid Aᵀ k := by
      rw [← Finset.sum_sub_distrib]
      exact Finset.sum_congr rfl (fun k _ => by ring)
    rw [hsplit] at hentry
    linarith [hentry]
  rw [calc_aligned_rmsd, hopt]
  simp

/-- C7 witness -/
theorem c7_witness :
    ((0 : ℕ) < 6) ∧
    (∀ (i : Fin 6) (j : Fin 3), kabschPts i j =
      (∑ k, (1 : Matrix (Fin 3) (Fin 3) ℝ) j k * kabschPts i k) + 0) ∧
    ((1 : Matrix (Fin 3) (Fin 3) ℝ)ᵀ * 1 = 1) ∧
    ((1 : Matrix (Fin 3) (Fin 3) ℝ).det = 1) ∧
    (covH kabschPts kabschPts = 1 * Matrix.diagonal kabschSv * 1) ∧
    (∀ i, 0 ≤ kabschSv i) ∧
    (∀ i j : Fin 3, i ≤ j → kabschSv j ≤ kabschSv i) ∧
    calc_aligned_rmsd kabschPts kabschPts 1 1 = 0 := by
  have e00 : kabschPts 0 0 = 3 := rfl
  have e01 : kabschPts 0 1 = 0 := rfl
  have e02 : kabschPts 0 2 = 0 := rfl
  have e10 : kabschPts 1 0 = -3 := rfl
  have e11 : kabschPts 1 1 = 0 := rfl
  have e12 : kabschPts 1 2 = 0 := rfl
  have e20 : kabschPts 2 0 = 0 := rfl
  have e21 : kabschPts 2 1 = 2 := rfl
  have e22 : kabschPts 2 2 = 0 := rfl
  have e30 : kabschPts 3 0 = 0 := rfl
  have e31 : kabschPts 3 1 = -2 := rfl
  have e32 : kabschPts 3 2 = 0 := rfl
  have e40 : kabschPts 4 0 = 0 := rfl
  have e41 : kabschPts 4 1 = 0 := rfl
  have e42 : kabschPts 4 2 = 1 := rfl
  have e50 : kabschPts 5 0 = 0 := rfl
  have e51 : kabschPts 5 1 = 0 := rfl
  have e52 : kabschPts 5 2 = -1 := rfl
  have s0 : kabschSv 0 = 18 := rfl
  have s1 : kabschSv 1 = 8 := rfl
  have s2 : kabschSv 2 = 2 := rfl
  have d00 : Matrix.diagonal kabschSv (0 : Fin 3) (0 : Fin 3) = 18 := rfl
  have d01 : Matrix.diagonal kabschSv (0 : Fin 3) (1 : Fin 3) = 0 := rfl
  have d02 : Matrix.diagonal kabschSv (0 : Fin 3) (2 : Fin 3) = 0 := rfl
  have d10 : Matrix.diagonal kabschSv (1 : Fin 3) (0 : Fin 3) = 0 := rfl
  have d11 : Matrix.diagonal kabschSv (1 : Fin 3) (1 : Fin 3) = 8 := rfl
  have d12 : Matrix.diagonal kabschSv (1 : Fin 3) (2 : Fin 3) = 0 := rfl
  have d20 : Matrix.diagonal kabschSv (2 : Fin 3) (0 : Fin 3) = 0 := rfl
  have d21 : Matrix.diagonal kabschSv (2 : Fin 3) (1 : Fin 3) = 0 := rfl
  have d22 : Matrix.diagonal kabschSv (2 : Fin 3) (2 : Fin 3) = 2 := rfl
  have f30 : (⟨0, by omega⟩ : Fin 3) = 0 := rfl
  have f31 : (⟨1, by omega⟩ : Fin 3) = 1 := rfl
  have f32 : (⟨2, by omega⟩ : Fin 3) = 2 := rfl
  have hA6 : ∀ (i : Fin 6) (j : Fin 3), kabschPts i j =
      (∑ k, (1 : Matrix (Fin 3) (Fin 3) ℝ) j k * kabschPts i k) + 0 := by
    intro i j
    simp [Matrix.one_apply, ite_mul, Finset.sum_ite_eq]
  have h16 : (1 : Matrix (Fin 3) (Fin 3) ℝ)ᵀ * 1 = 1 := by simp
  have hd6 : (1 : Matrix (Fin 3) (Fin 3) ℝ).det = 1 := by simp
  have hcent : ∀ i, centroid kabschPtsᵀ i = 0 := by
    intro i
    fin_cases i <;>
      · simp only [centroid, Matrix.transpose_apply, Fin.sum_univ_six,
          f30, f31, f32]
        norm_num [e00, e01, e02, e10, e11, e12, e20, e21, e22, e30, e31, e32, e40, e41, e42, e50, e51, e52]
  have hcentered : centered kabschPtsᵀ = kabschPtsᵀ := by
    ext i j
    simp [centered, hcent]
  have hsvd6 : covH kabschPts kabschPts =
      1 * Matrix.diagonal kabschSv * 1 := by
    have hc : covH kabschPts kabschPts = kabschPtsᵀ * kabschPts := by
      rw [covH, hcentered, Matrix.transpose_transpose]
    rw [hc, Matrix.one_mul, Matrix.mul_one]
    ext i j
    fin_cases i <;> fin_cases j <;>
      · rw [Matrix.mul_apply]
        simp only [Matrix.transpose_apply, Fin.sum_univ_six, f30, f31, f32]
        norm_num [e00, e01, e02, e10, e11, e12, e20, e21, e22, e30, e31,
          e32, e40, e41, e42, e50, e51, e52, d00, d01, d02, d10, d11, d12,
          d20, d21, d22, s0, s1, s2]
  have hs6 : ∀ i, 0 ≤ kabschSv i := by
    intro i
    fin_cases i <;> simp only [f30, f31, f32] <;> norm_num [s0, s1, s2]
  have hm6 : ∀ i j : Fin 3, i ≤ j → kabschSv j ≤ kabschSv i := by
    intro i j hij
    fin_cases i <;> fin_cases j <;> simp only [f30, f31, f32] <;>
      first
        | exact absurd hij (by decide)
        | norm_num [s0, s1, s2]
  exact ⟨by norm_num, hA6, h16, hd6, hsvd6, hs6, hm6,
    c7_rigid_invariance_rmsd_zero (by norm_num) kabschPts kabschPts 1
      (fun _ => 0) 1 1 kabschSv hA6 h16 hd6 h16 h16 hsvd6 hs6 hm6⟩

end ScaffoldLab
